import Mathlib

/-!
Shallow embedding of the DeepCore chess rules engine:
`src/chess/game.py` (class `Game`), `src/chess/pieces.py` (the `Piece`
hierarchy) and `src/engine/deepcore.py` (class `DeepCore`).

Conventions of the embedding:
* Python int pairs `(row, col)` become `Pos := Int × Int`.
* The board dict `Dict[Tuple[int,int], Optional[Piece]]` becomes a total
  function `Pos → Option Piece`; `dict.get` on a missing (off-board) key
  returns `None`, matched here by boards that are `none` off the 8×8 range.
* Python mutation of `self` is translated into explicit state passing: a
  method that mutates returns the new `Game` (paired with its return value).
* Python `==` on `Piece` objects is identity comparison (no `__eq__` is
  defined); the `pid` field models object identity.  The fields `value`,
  `captured` and `texture` are never read by any rules logic and are omitted.
* `piece.has_moved = True` mutates the moved piece object, which at that
  point of `make_move` sits on the board at the destination square; the
  translation updates that square and stores the updated piece in the
  appended move record (the record references the same object).
-/

/-- Board coordinates `(row, col)`, Python ints. -/
abbrev Pos := Int × Int

/-- Piece colors; `Piece.__init__` rejects anything but these two strings. -/
inductive Color where
  | white
  | black
deriving DecidableEq

/-- The `'black' if color == 'white' else 'white'` idiom used throughout. -/
def otherColor : Color → Color
  | .white => .black
  | .black => .white

/-- The closed set of piece classes in `src/chess/pieces.py`. -/
inductive PieceKind where
  | pawn
  | knight
  | bishop
  | rook
  | queen
  | king
deriving DecidableEq

/-- A chess piece; `pid` models Python object identity. -/
structure Piece where
  pid : Nat
  kind : PieceKind
  color : Color
  hasMoved : Bool
deriving DecidableEq

/-- The board: total map from squares to optional pieces (`dict.get`). -/
abbrev Board := Pos → Option Piece

/-- Python `board[pos] = v` on the dict. -/
def Board.set (b : Board) (p : Pos) (v : Option Piece) : Board :=
  fun q => if q = p then v else b q

/-- Constant `BOARD_SIZE` from `src/chess/const.py`. -/
def BOARD_SIZE : Int := 8

/-- Method `is_valid_position(row, col)`: `0 <= row < BOARD_SIZE and 0 <= col < BOARD_SIZE`. -/
def isValidPos (p : Pos) : Bool :=
  0 ≤ p.1 && p.1 < BOARD_SIZE && 0 ≤ p.2 && p.2 < BOARD_SIZE

/-- Method `Piece.is_empty_square`: the square holds no piece. -/
def isEmptySq (o : Option Piece) : Bool :=
  o.isNone

/-- Method `Piece.is_enemy_piece`: a piece of the opposite color is there. -/
def isEnemySq (c : Color) (o : Option Piece) : Bool :=
  match o with
  | some r => decide (r.color ≠ c)
  | none => false

/-- Method `Pawn.possible_moves`. -/
def pawnMoves (c : Color) (pos : Pos) (b : Board) : List Pos :=
  let row := pos.1
  let col := pos.2
  let direction : Int := if c = Color.black then 1 else -1
  let startRow : Int := if c = Color.black then 1 else 6
  let forwardOne : Pos := (row + direction, col)
  let forward :=
    if isValidPos forwardOne && isEmptySq (b forwardOne) then
      let forwardTwo : Pos := (row + 2 * direction, col)
      if row = startRow && isValidPos forwardTwo && isEmptySq (b forwardTwo) then
        [forwardOne, forwardTwo]
      else
        [forwardOne]
    else
      []
  let captures := ([-1, 1] : List Int).filterMap fun colOffset =>
    let capture : Pos := (row + direction, col + colOffset)
    if isValidPos capture && isEnemySq c (b capture) then some capture else none
  forward ++ captures

/-- The eight L-shaped offsets of `Knight.possible_moves`. -/
def knightOffsets : List (Int × Int) :=
  [(2, 1), (2, -1), (-2, 1), (-2, -1), (1, 2), (1, -2), (-1, 2), (-1, -2)]

/-- Method `Knight.possible_moves`. -/
def knightMoves (c : Color) (pos : Pos) (b : Board) : List Pos :=
  knightOffsets.filterMap fun d =>
    let q : Pos := (pos.1 + d.1, pos.2 + d.2)
    if isValidPos q && (isEmptySq (b q) || isEnemySq c (b q)) then some q else none

/-- One ray of `_get_line_moves`: step from `(r, c)` along `(dr, dc)` until the
board edge, an own piece (stop) or an enemy piece (include, stop).  The while
loop is bounded by fuel; 8 steps always reach the board edge from any valid
start square. -/
def lineMovesAux (c : Color) (b : Board) (dr dc : Int) : Nat → Int → Int → List Pos
  | 0, _, _ => []
  | n + 1, r, co =>
    let r' := r + dr
    let c' := co + dc
    if !isValidPos (r', c') then []
    else if isEmptySq (b (r', c')) then
      (r', c') :: lineMovesAux c b dr dc n r' c'
    else if isEnemySq c (b (r', c')) then [(r', c')]
    else []

/-- Method `_get_line_moves` over a direction list (appends per direction, in order). -/
def lineMoves (c : Color) (pos : Pos) (b : Board) (dirs : List (Int × Int)) : List Pos :=
  dirs.foldl (fun acc d => acc ++ lineMovesAux c b d.1 d.2 8 pos.1 pos.2) []

/-- The `Rook.possible_moves` direction set. -/
def rookDirs : List (Int × Int) := [(0, 1), (1, 0), (-1, 0), (0, -1)]

/-- The `Bishop.possible_moves` direction set. -/
def bishopDirs : List (Int × Int) := [(1, 1), (-1, -1), (-1, 1), (1, -1)]

/-- The `Queen.possible_moves` direction set. -/
def queenDirs : List (Int × Int) :=
  [(1, 0), (0, 1), (0, -1), (-1, 0), (-1, -1), (1, -1), (-1, 1), (1, 1)]

/-- The eight unit offsets of `King.possible_moves`. -/
def kingDirs : List (Int × Int) :=
  [(1, 0), (0, 1), (0, -1), (-1, 0), (-1, -1), (1, -1), (-1, 1), (1, 1)]

/-- Method `King.possible_moves`: one square in any direction. -/
def kingMoves (c : Color) (pos : Pos) (b : Board) : List Pos :=
  kingDirs.filterMap fun d =>
    let q : Pos := (pos.1 + d.1, pos.2 + d.2)
    if isValidPos q && (isEmptySq (b q) || isEnemySq c (b q)) then some q else none

/-- Dispatch of `piece.possible_moves(position, board)` over the class tag. -/
def possibleMoves (p : Piece) (pos : Pos) (b : Board) : List Pos :=
  match p.kind with
  | .pawn => pawnMoves p.color pos b
  | .knight => knightMoves p.color pos b
  | .bishop => lineMoves p.color pos b bishopDirs
  | .rook => lineMoves p.color pos b rookDirs
  | .queen => lineMoves p.color pos b queenDirs
  | .king => kingMoves p.color pos b

/-- The `GameState` enum. -/
inductive GState where
  | active
  | check
  | checkmate
  | stalemate
  | draw
deriving DecidableEq

/-- The `Move` dataclass (a move-history record). -/
structure MoveRec where
  fromPos : Pos
  toPos : Pos
  piece : Piece
  captured : Option Piece
  isCastling : Bool
  isEnPassant : Bool
  isPromotion : Bool
  promotedTo : Option PieceKind
deriving DecidableEq

/-- The four castling-rights flags (`self.castling_rights` dict). -/
structure CastlingRights where
  whiteKingside : Bool
  whiteQueenside : Bool
  blackKingside : Bool
  blackQueenside : Bool
deriving DecidableEq

/-- Castling side. -/
inductive Side where
  | kingside
  | queenside
deriving DecidableEq

/-- Lookup `castling_rights[f"{color}_{side}"]`. -/
def CastlingRights.get (cr : CastlingRights) (c : Color) (s : Side) : Bool :=
  match c, s with
  | .white, .kingside => cr.whiteKingside
  | .white, .queenside => cr.whiteQueenside
  | .black, .kingside => cr.blackKingside
  | .black, .queenside => cr.blackQueenside

/-- Clear both flags of one color (`execute_castling` lines 279-280, and the
king-move case of `make_move` lines 349-350). -/
def CastlingRights.clearBoth (cr : CastlingRights) (c : Color) : CastlingRights :=
  match c with
  | .white => { cr with whiteKingside := false, whiteQueenside := false }
  | .black => { cr with blackKingside := false, blackQueenside := false }

/-- The `Game` state.  `moveHistory` is kept most-recent-first: Python appends
to the tail of the list and `pop()`s from the tail; here a new record is
consed at the head and `undo_move` takes the head. -/
structure Game where
  currentTurn : Color
  moveHistory : List MoveRec
  board : Board
  gameState : GState
  whiteKingPos : Pos
  blackKingPos : Pos
  castlingRights : CastlingRights
  enPassantTarget : Option Pos
  halfmoveClock : Nat
  fullmoveNumber : Nat

/-- Method `get_king_position`. -/
def kingPosOf (g : Game) (c : Color) : Pos :=
  match c with
  | .white => g.whiteKingPos
  | .black => g.blackKingPos

/-- Method `update_king_position`. -/
def setKingPos (g : Game) (c : Color) (p : Pos) : Game :=
  match c with
  | .white => { g with whiteKingPos := p }
  | .black => { g with blackKingPos := p }

/-- Row-major list of the 64 board keys (`create_board` insertion order,
which is also the iteration order of `self.board.items()`). -/
def allSquares : List Pos :=
  (List.range 8).flatMap fun r => (List.range 8).map fun c => (Int.ofNat r, Int.ofNat c)

/-- Method `is_square_under_attack(position, by_color)`: some piece of `byColor` on
the board has `position` among its possible moves. -/
def isSquareUnderAttack (b : Board) (pos : Pos) (byColor : Color) : Bool :=
  allSquares.any fun sq =>
    match b sq with
    | some p => decide (p.color = byColor) && decide (pos ∈ possibleMoves p sq b)
    | none => false

/-- Method `is_in_check(color)`. -/
def isInCheck (g : Game) (c : Color) : Bool :=
  isSquareUnderAttack g.board (kingPosOf g c) (otherColor c)

/-- Method `get_all_possible_moves(color)`. -/
def getAllPossibleMoves (g : Game) (c : Color) : List (Pos × Pos) :=
  allSquares.flatMap fun sq =>
    match g.board sq with
    | some p =>
        if p.color = c then (possibleMoves p sq g.board).map fun mv => (sq, mv) else []
    | none => []

/-- Method `simulate_move`: deep copy of the board with the piece moved; the source
square is cleared after the destination is written. -/
def simulateMove (b : Board) (a t : Pos) : Board :=
  (b.set t (b a)).set a none

/-- Method `is_legal_move(from_pos, to_pos)` with the state threaded through: the
method temporarily replaces `self.board` with the simulated board (and the
king cache if the king moves), computes check, then restores both.  The
returned `Game` is the state the live object is left in. -/
def isLegalMoveS (g : Game) (a t : Pos) : Bool × Game :=
  match g.board a with
  | none => (false, g)
  | some piece =>
    if piece.color ≠ g.currentTurn then (false, g)
    else if t ∉ possibleMoves piece a g.board then (false, g)
    else
      let g1 : Game := { g with board := simulateMove g.board a t }
      let g2 : Game :=
        if piece.kind = PieceKind.king then setKingPos g1 piece.color t else g1
      let inCheck := isInCheck g2 piece.color
      let g3 : Game := { g2 with board := g.board }
      let g4 : Game :=
        if piece.kind = PieceKind.king then setKingPos g3 piece.color (kingPosOf g piece.color)
        else g3
      (!inCheck, g4)

/-- Method `get_legal_moves(color)`, threading the live state through each
`is_legal_move` call. -/
def getLegalMovesS (g : Game) (c : Color) : List (Pos × Pos) × Game :=
  (getAllPossibleMoves g c).foldl
    (fun acc mv =>
      let r := isLegalMoveS acc.2 mv.1 mv.2
      (if r.1 then acc.1 ++ [mv] else acc.1, r.2))
    ([], g)

/-- The legal-move list itself. -/
def getLegalMoves (g : Game) (c : Color) : List (Pos × Pos) :=
  (getLegalMovesS g c).1

/-- Method `is_checkmate(color)`. -/
def isCheckmate (g : Game) (c : Color) : Bool :=
  if !isInCheck g c then false else (getLegalMovesS g c).1.length == 0

/-- Method `is_stalemate(color)`. -/
def isStalemate (g : Game) (c : Color) : Bool :=
  if isInCheck g c then false else (getLegalMovesS g c).1.length == 0

/-- Method `can_castle(color, side)`. -/
def canCastle (g : Game) (c : Color) (s : Side) : Bool :=
  if isInCheck g c then false
  else if !(g.castlingRights.get c s) then false
  else
    let row := (kingPosOf g c).1
    match s with
    | .kingside =>
        ([5, 6] : List Int).all fun col =>
          isEmptySq (g.board (row, col)) &&
            !(isSquareUnderAttack g.board (row, col) (otherColor c))
    | .queenside =>
        (([1, 2, 3] : List Int).all fun col => isEmptySq (g.board (row, col))) &&
          (([2, 3] : List Int).all fun col =>
            !(isSquareUnderAttack g.board (row, col) (otherColor c)))

/-- Method `execute_castling(color, side)`. -/
def executeCastling (g : Game) (c : Color) (s : Side) : Game :=
  let row : Int := if c = Color.black then 0 else 7
  match s with
  | .kingside =>
      let b1 := (g.board.set (row, 6) (g.board (row, 4))).set (row, 4) none
      let g1 := setKingPos { g with board := b1 } c (row, 6)
      let b2 := (g1.board.set (row, 5) (g1.board (row, 7))).set (row, 7) none
      let g2 := { g1 with board := b2 }
      { g2 with castlingRights := g2.castlingRights.clearBoth c }
  | .queenside =>
      let b1 := (g.board.set (row, 2) (g.board (row, 4))).set (row, 4) none
      let g1 := setKingPos { g with board := b1 } c (row, 2)
      let b2 := (g1.board.set (row, 3) (g1.board (row, 0))).set (row, 0) none
      let g2 := { g1 with board := b2 }
      { g2 with castlingRights := g2.castlingRights.clearBoth c }

/-- Method `is_promotion(from_pos, to_pos)`: reads the piece at the *source* square. -/
def isPromotionS (g : Game) (a t : Pos) : Bool :=
  match g.board a with
  | some p =>
      if p.kind ≠ PieceKind.pawn then false
      else decide (t.1 = (if p.color = Color.white then (0 : Int) else 7))
  | none => false

/-- Castling-rights update of `make_move` lines 347-361 (king move clears both
own flags, rook move from a corner clears that corner's flag). -/
def updateRightsAfterMove (cr : CastlingRights) (piece : Piece) (a : Pos) : CastlingRights :=
  if piece.kind = PieceKind.king then cr.clearBoth piece.color
  else if piece.kind = PieceKind.rook then
    if a = ((0 : Int), (0 : Int)) then { cr with blackQueenside := false }
    else if a = ((0 : Int), (7 : Int)) then { cr with blackKingside := false }
    else if a = ((7 : Int), (0 : Int)) then { cr with whiteQueenside := false }
    else if a = ((7 : Int), (7 : Int)) then { cr with whiteKingside := false }
    else cr
  else cr

/-- The moved piece after `piece.has_moved = True`. -/
def movedPiece (p : Piece) : Piece :=
  { p with hasMoved := true }

/-- Result of `make_move`: a normal boolean return, or an uncaught exception
(`promote_pawn` calls `create_piece`, whose definition in
`src/chess/pieces.py` is commented out, so reaching it raises `NameError`).
Either way the `Game` carried is the state the object is left in. -/
inductive MMResult where
  | ret (b : Bool) (g : Game)
  | exn (g : Game)

/-- The state `make_move` leaves behind. -/
def MMResult.state : MMResult → Game
  | .ret _ g => g
  | .exn g => g

/-- `make_move` returned `True`. -/
def MMResult.isOk : MMResult → Bool
  | .ret b _ => b
  | .exn _ => false

/-- Method `update_game_state` recomputes `self.game_state` from the position; the
elif-chain is a pure function of the other fields. -/
def computeGameState (g : Game) : GState :=
  if isCheckmate g g.currentTurn then GState.checkmate
  else if isStalemate g g.currentTurn then GState.stalemate
  else if isInCheck g g.currentTurn then GState.check
  else if 100 ≤ g.halfmoveClock then GState.draw
  else GState.active

/-- Method `update_game_state` as a state transformer. -/
def updateGameState (g : Game) : Game :=
  { g with gameState := computeGameState g }

/-- Tail of `make_move` (lines 341-384): everything after the board mutation (promotion
attempt, castling-rights update, `has_moved`, counters, history append, turn
toggle, `update_game_state`).  `gmid` is the state after the board mutation;
the moved piece object sits at `t` (for castling, the king's destination
equals `t` whenever the dispatch geometry of line 324 placed it there). -/
def finishMove (gmid : Game) (a t : Pos) (piece : Piece) (captured : Option Piece)
    (mv : MoveRec) : MMResult :=
  if isPromotionS gmid a t then
    MMResult.exn gmid
  else
    let g2 : Game := { gmid with castlingRights := updateRightsAfterMove gmid.castlingRights piece a }
    let g3 : Game := { g2 with board := g2.board.set t (some (movedPiece piece)) }
    let g4 : Game :=
      { g3 with
        halfmoveClock :=
          if piece.kind = PieceKind.pawn || captured.isSome then 0 else g3.halfmoveClock + 1 }
    let g5 : Game :=
      if g4.currentTurn = Color.black then { g4 with fullmoveNumber := g4.fullmoveNumber + 1 }
      else g4
    let g6 : Game := { g5 with moveHistory := { mv with piece := movedPiece piece } :: g5.moveHistory }
    let g7 : Game := { g6 with currentTurn := otherColor g6.currentTurn }
    MMResult.ret true (updateGameState g7)

/-- Method `make_move(from_pos, to_pos, promotion_piece)`.  The `promo` argument is
only ever consumed by the (unreachable) promotion path, matching the source. -/
def makeMoveS (g : Game) (a t : Pos) (_promo : PieceKind) : MMResult :=
  let lg := isLegalMoveS g a t
  if !lg.1 then MMResult.ret false lg.2
  else
    let g0 := lg.2
    match g0.board a with
    | none => MMResult.ret false g0
    | some piece =>
      let captured := g0.board t
      let mv : MoveRec :=
        { fromPos := a, toPos := t, piece := piece, captured := captured,
          isCastling := false, isEnPassant := false, isPromotion := false, promotedTo := none }
      if piece.kind = PieceKind.king ∧ (t.2 - a.2).natAbs = 2 then
        let side := if a.2 < t.2 then Side.kingside else Side.queenside
        if canCastle g0 piece.color side then
          finishMove (executeCastling g0 piece.color side) a t piece captured
            { mv with isCastling := true }
        else MMResult.ret false g0
      else
        let b1 := (g0.board.set t (some piece)).set a none
        let g1 : Game := { g0 with board := b1 }
        let g2 : Game :=
          if piece.kind = PieceKind.king then setKingPos g1 piece.color t else g1
        finishMove g2 a t piece captured mv

/-- Method `undo_move`. -/
def undoS (g : Game) : Bool × Game :=
  match g.moveHistory with
  | [] => (false, g)
  | m :: rest =>
    let b1 := g.board.set m.fromPos (some m.piece)
    let b2 := b1.set m.toPos m.captured
    let b3 :=
      if m.isCastling then
        let row := m.fromPos.1
        if m.toPos.2 = 6 then (b2.set (row, 7) (b2 (row, 5))).set (row, 5) none
        else (b2.set (row, 0) (b2 (row, 3))).set (row, 3) none
      else b2
    let g1 : Game := { g with board := b3, moveHistory := rest }
    let g2 : Game :=
      if m.piece.kind = PieceKind.king then setKingPos g1 m.piece.color m.fromPos else g1
    let g3 : Game :=
      if rest.isEmpty || !(rest.any fun mv => mv.piece.pid == m.piece.pid) then
        { g2 with board := g2.board.set m.fromPos (some { m.piece with hasMoved := false }) }
      else g2
    let g4 : Game := { g3 with currentTurn := otherColor g3.currentTurn }
    (true, updateGameState g4)

/-- The `piece_order` list of `create_board`. -/
def pieceOrder : List PieceKind :=
  [.rook, .knight, .bishop, .queen, .king, .bishop, .knight, .rook]

/-- Method `create_board`: the initial position.  `pid = row * 8 + col` models the
distinct object identities of the 32 pieces created at start-up. -/
def initialBoard : Board := fun p =>
  let r := p.1
  let c := p.2
  if isValidPos p then
    let pid := (r * 8 + c).toNat
    if r = 0 then some ⟨pid, pieceOrder.getD c.toNat PieceKind.rook, Color.black, false⟩
    else if r = 1 then some ⟨pid, PieceKind.pawn, Color.black, false⟩
    else if r = 6 then some ⟨pid, PieceKind.pawn, Color.white, false⟩
    else if r = 7 then some ⟨pid, pieceOrder.getD c.toNat PieceKind.rook, Color.white, false⟩
    else none
  else none

/-- State of `Game.__init__` / `new_game`. -/
def initGame : Game :=
  { currentTurn := Color.white
    moveHistory := []
    board := initialBoard
    gameState := GState.active
    whiteKingPos := (7, 4)
    blackKingPos := (0, 4)
    castlingRights := ⟨true, true, true, true⟩
    enPassantTarget := none
    halfmoveClock := 0
    fullmoveNumber := 1 }

/-- Scenario-C position (spec §8): white king on (7,4), white rook on (7,7),
(7,5) and (7,6) empty, black king far away on (0,4), white kingside rights
set, white to move. -/
def castleBoard : Board := fun p =>
  if p = ((7 : Int), (4 : Int)) then some ⟨1, PieceKind.king, Color.white, false⟩
  else if p = ((7 : Int), (7 : Int)) then some ⟨2, PieceKind.rook, Color.white, false⟩
  else if p = ((0 : Int), (4 : Int)) then some ⟨3, PieceKind.king, Color.black, false⟩
  else none

/-- Scenario-C game state. -/
def gCastle : Game :=
  { currentTurn := Color.white
    moveHistory := []
    board := castleBoard
    gameState := GState.active
    whiteKingPos := (7, 4)
    blackKingPos := (0, 4)
    castlingRights := ⟨true, true, false, false⟩
    enPassantTarget := none
    halfmoveClock := 0
    fullmoveNumber := 1 }

/-- Promotion position: white pawn on (1,0) one step from the back rank,
kings on (7,4) and (0,4), white to move. -/
def promoBoard : Board := fun p =>
  if p = ((1 : Int), (0 : Int)) then some ⟨0, PieceKind.pawn, Color.white, false⟩
  else if p = ((7 : Int), (4 : Int)) then some ⟨1, PieceKind.king, Color.white, false⟩
  else if p = ((0 : Int), (4 : Int)) then some ⟨2, PieceKind.king, Color.black, false⟩
  else none

/-- Promotion game state. -/
def gPromo : Game :=
  { currentTurn := Color.white
    moveHistory := []
    board := promoBoard
    gameState := GState.active
    whiteKingPos := (7, 4)
    blackKingPos := (0, 4)
    castlingRights := ⟨false, false, false, false⟩
    enPassantTarget := none
    halfmoveClock := 0
    fullmoveNumber := 1 }

/-- Fifty-move-rule position: white rook on (4,0), kings on (7,4) and (0,4),
white to move, half-move clock already at 100. -/
def rookBoard : Board := fun p =>
  if p = ((4 : Int), (0 : Int)) then some ⟨3, PieceKind.rook, Color.white, false⟩
  else if p = ((7 : Int), (4 : Int)) then some ⟨1, PieceKind.king, Color.white, false⟩
  else if p = ((0 : Int), (4 : Int)) then some ⟨2, PieceKind.king, Color.black, false⟩
  else none

/-- Fifty-move-rule game state. -/
def gFifty : Game :=
  { currentTurn := Color.white
    moveHistory := []
    board := rookBoard
    gameState := GState.active
    whiteKingPos := (7, 4)
    blackKingPos := (0, 4)
    castlingRights := ⟨false, false, false, false⟩
    enPassantTarget := none
    halfmoveClock := 100
    fullmoveNumber := 60 }

/-- Consistency of a piece's `has_moved` flag with the move history, at one
square: the flag is set exactly when some history record shows that same
object (by identity) moving.  `make_move` maintains this for every piece it
touches, and `undo_move`'s heuristic restore is exact precisely under it. -/
def flagHistConsistent (g : Game) (a : Pos) : Bool :=
  match g.board a with
  | some p => p.hasMoved == g.moveHistory.any fun mv => mv.piece.pid == p.pid
  | none => true

/-- A configuration value of `DeepCore` (`int` or `bool` in the source). -/
inductive CfgVal where
  | int (n : Int)
  | bool (b : Bool)
deriving DecidableEq

/-- Dict `DeepCore._config`: a dict with exactly these five keys. -/
structure EngineCfg where
  depth : CfgVal
  threads : CfgVal
  useOpenbook : CfgVal
  timeLimit : CfgVal
  devMode : CfgVal
deriving DecidableEq

/-- Membership test `key in self._config`. -/
def isCfgKey (k : String) : Bool :=
  k == "depth" || k == "threads" || k == "use_openbook" || k == "time_limit" || k == "dev_mode"

/-- Assignment `self._config[key] = value`. -/
def cfgSet (c : EngineCfg) (k : String) (v : CfgVal) : EngineCfg :=
  if k == "depth" then { c with depth := v }
  else if k == "threads" then { c with threads := v }
  else if k == "use_openbook" then { c with useOpenbook := v }
  else if k == "time_limit" then { c with timeLimit := v }
  else if k == "dev_mode" then { c with devMode := v }
  else c

/-- Method `DeepCore.config(**kwargs)`: iterate the keyword arguments in order,
assigning recognized keys and raising `KeyError` on the first unrecognized
one.  The error carries the offending key and the state of `self._config` at
the moment of the raise (the dict is mutated in place, so assignments made
before the raise persist). -/
def configS : EngineCfg → List (String × CfgVal) → Except (String × EngineCfg) EngineCfg
  | c, [] => Except.ok c
  | c, (k, v) :: rest =>
      if isCfgKey k then configS (cfgSet c k v) rest else Except.error (k, c)

/-- The `DeepCore.__init__` defaults. -/
def defaultCfg : EngineCfg :=
  { depth := CfgVal.int 10
    threads := CfgVal.int 2
    useOpenbook := CfgVal.bool true
    timeLimit := CfgVal.int 60
    devMode := CfgVal.bool false }

/-- Fold applying the recognized-key assignments of a kwargs prefix. -/
def applyCfg (c : EngineCfg) (l : List (String × CfgVal)) : EngineCfg :=
  l.foldl (fun acc kv => cfgSet acc kv.1 kv.2) c

theorem Board.set_self (b : Board) (p : Pos) (v : Option Piece) : (b.set p v) p = v := by
  simp [Board.set]

theorem Board.set_ne (b : Board) (p q : Pos) (v : Option Piece) (h : q ≠ p) :
    (b.set p v) q = b q := by
  simp [Board.set, h]

theorem setKingPos_board (g : Game) (c : Color) (p : Pos) :
    (setKingPos g c p).board = g.board := by
  cases c <;> rfl

theorem setKingPos_turn (g : Game) (c : Color) (p : Pos) :
    (setKingPos g c p).currentTurn = g.currentTurn := by
  cases c <;> rfl

theorem setKingPos_history (g : Game) (c : Color) (p : Pos) :
    (setKingPos g c p).moveHistory = g.moveHistory := by
  cases c <;> rfl

theorem setKingPos_rights (g : Game) (c : Color) (p : Pos) :
    (setKingPos g c p).castlingRights = g.castlingRights := by
  cases c <;> rfl

theorem kingPosOf_setKingPos_self (g : Game) (c : Color) (p : Pos) :
    kingPosOf (setKingPos g c p) c = p := by
  cases c <;> rfl

theorem updateGameState_board (g : Game) : (updateGameState g).board = g.board := rfl

theorem updateGameState_turn (g : Game) : (updateGameState g).currentTurn = g.currentTurn := rfl

theorem updateGameState_rights (g : Game) :
    (updateGameState g).castlingRights = g.castlingRights := rfl

theorem updateGameState_history (g : Game) :
    (updateGameState g).moveHistory = g.moveHistory := rfl

theorem updateGameState_halfmove (g : Game) :
    (updateGameState g).halfmoveClock = g.halfmoveClock := rfl

theorem otherColor_otherColor (c : Color) : otherColor (otherColor c) = c := by
  cases c <;> rfl

theorem isLegalMoveS_snd (g : Game) (a t : Pos) : (isLegalMoveS g a t).2 = g := by
  unfold isLegalMoveS
  cases hb : g.board a with
  | none => rfl
  | some piece =>
    by_cases h1 : piece.color ≠ g.currentTurn
    · simp [h1]
    · by_cases h2 : t ∉ possibleMoves piece a g.board
      · simp [h1, h2]
      · by_cases hk : piece.kind = PieceKind.king
        · cases hc : piece.color <;> simp [h1, h2, hk, hc, setKingPos, kingPosOf] <;>
            split <;> rfl
        · simp [h1, h2, hk]

theorem legalFold (g : Game) (l : List (Pos × Pos)) (acc0 : List (Pos × Pos)) :
    l.foldl
      (fun acc mv =>
        let r := isLegalMoveS acc.2 mv.1 mv.2
        (if r.1 then acc.1 ++ [mv] else acc.1, r.2))
      (acc0, g)
    = (acc0 ++ l.filter fun mv => (isLegalMoveS g mv.1 mv.2).1, g) := by
  induction l generalizing acc0 with
  | nil => simp
  | cons mv rest ih =>
    rw [List.foldl_cons]
    have hstep :
        (let r := isLegalMoveS (acc0, g).2 mv.1 mv.2
         (if r.1 then (acc0, g).1 ++ [mv] else (acc0, g).1, r.2))
          = (if (isLegalMoveS g mv.1 mv.2).1 then acc0 ++ [mv] else acc0, g) := by
      simp only [isLegalMoveS_snd]
    rw [hstep]
    by_cases h : (isLegalMoveS g mv.1 mv.2).1 = true
    · rw [if_pos h, ih]
      simp [List.filter_cons, h]
    · rw [if_neg h, ih]
      simp [List.filter_cons, h]

theorem getLegalMovesS_eq (g : Game) (c : Color) :
    getLegalMovesS g c
      = ((getAllPossibleMoves g c).filter fun mv => (isLegalMoveS g mv.1 mv.2).1, g) := by
  unfold getLegalMovesS
  rw [legalFold]
  simp

theorem getLegalMovesS_snd (g : Game) (c : Color) : (getLegalMovesS g c).2 = g := by
  rw [getLegalMovesS_eq]

theorem getLegalMoves_eq (g : Game) (c : Color) :
    getLegalMoves g c = (getAllPossibleMoves g c).filter fun mv => (isLegalMoveS g mv.1 mv.2).1 := by
  unfold getLegalMoves
  rw [getLegalMovesS_eq]

theorem pawnMoves_target (c : Color) (pos : Pos) (b : Board) (q : Pos)
    (h : q ∈ pawnMoves c pos b) : (isEmptySq (b q) || isEnemySq c (b q)) = true := by
  simp only [pawnMoves] at h
  rw [Bool.or_eq_true]
  generalize (if c = Color.black then (1 : Int) else -1) = d at h
  generalize (if c = Color.black then (1 : Int) else 6) = s at h
  rcases List.mem_append.mp h with h | h
  · split at h
    · rename_i hone
      rw [Bool.and_eq_true] at hone
      split at h
      · rename_i htwo
        rw [Bool.and_eq_true, Bool.and_eq_true] at htwo
        rcases List.mem_cons.mp h with rfl | h
        · exact Or.inl hone.2
        · rcases List.mem_singleton.mp h with rfl
          exact Or.inl htwo.2
      · rcases List.mem_singleton.mp h with rfl
        exact Or.inl hone.2
    · exact absurd h (List.not_mem_nil q)
  · rcases List.mem_filterMap.mp h with ⟨off, hoff, hq⟩
    split at hq
    · rename_i hcap
      rw [Bool.and_eq_true] at hcap
      rcases Option.some.inj hq with rfl
      exact Or.inr hcap.2
    · exact absurd hq (by simp)

theorem knightMoves_target (c : Color) (pos : Pos) (b : Board) (q : Pos)
    (h : q ∈ knightMoves c pos b) : (isEmptySq (b q) || isEnemySq c (b q)) = true := by
  unfold knightMoves at h
  simp only [List.mem_filterMap] at h
  obtain ⟨d, hd, hq⟩ := h
  split at hq
  · rename_i hg
    rcases Option.some.inj hq with rfl
    simp_all
  · simp at hq

theorem kingMoves_target (c : Color) (pos : Pos) (b : Board) (q : Pos)
    (h : q ∈ kingMoves c pos b) : (isEmptySq (b q) || isEnemySq c (b q)) = true := by
  unfold kingMoves at h
  simp only [List.mem_filterMap] at h
  obtain ⟨d, hd, hq⟩ := h
  split at hq
  · rename_i hg
    rcases Option.some.inj hq with rfl
    simp_all
  · simp at hq

theorem lineMovesAux_target (c : Color) (b : Board) (dr dc : Int) (n : Nat) (r co : Int)
    (q : Pos) (h : q ∈ lineMovesAux c b dr dc n r co) :
    (isEmptySq (b q) || isEnemySq c (b q)) = true := by
  induction n generalizing r co with
  | zero => simp [lineMovesAux] at h
  | succ n ih =>
    simp only [lineMovesAux] at h
    split at h
    · simp at h
    · split at h
      · rename_i hempty
        rcases List.mem_cons.mp h with rfl | h
        · simp_all
        · exact ih _ _ h
      · split at h
        · rename_i henemy
          rcases List.mem_singleton.mp h with rfl
          simp_all
        · simp at h

theorem foldl_append_flat {α β : Type} (l : List α) (f : α → List β) (acc : List β) :
    l.foldl (fun a d => a ++ f d) acc = acc ++ l.flatMap f := by
  induction l generalizing acc with
  | nil => simp
  | cons d rest ih => simp [ih]

theorem lineMoves_target (c : Color) (pos : Pos) (b : Board) (dirs : List (Int × Int))
    (q : Pos) (h : q ∈ lineMoves c pos b dirs) :
    (isEmptySq (b q) || isEnemySq c (b q)) = true := by
  unfold lineMoves at h
  rw [foldl_append_flat] at h
  simp only [List.nil_append, List.mem_flatMap] at h
  obtain ⟨d, _, hq⟩ := h
  exact lineMovesAux_target c b d.1 d.2 8 pos.1 pos.2 q hq

theorem possibleMoves_target (p : Piece) (pos : Pos) (b : Board) (q : Pos)
    (h : q ∈ possibleMoves p pos b) : (isEmptySq (b q) || isEnemySq p.color (b q)) = true := by
  obtain ⟨pid, k, c, hm⟩ := p
  cases k
  case pawn => exact pawnMoves_target _ _ _ _ h
  case knight => exact knightMoves_target _ _ _ _ h
  case bishop => exact lineMoves_target _ _ _ _ _ h
  case rook => exact lineMoves_target _ _ _ _ _ h
  case queen => exact lineMoves_target _ _ _ _ _ h
  case king => exact kingMoves_target _ _ _ _ h

theorem possibleMoves_not_self (p : Piece) (pos : Pos) (b : Board)
    (hb : b pos = some p) : pos ∉ possibleMoves p pos b := by
  intro h
  have := possibleMoves_target p pos b pos h
  rw [hb] at this
  simp [isEmptySq, isEnemySq] at this

theorem kingPosOf_board_update (g : Game) (b : Board) (c : Color) :
    kingPosOf { g with board := b } c = kingPosOf g c := by
  cases c <;> rfl

theorem kingMoves_close (c : Color) (pos : Pos) (b : Board) (q : Pos)
    (h : q ∈ kingMoves c pos b) : (q.1 - pos.1).natAbs ≤ 1 ∧ (q.2 - pos.2).natAbs ≤ 1 := by
  unfold kingMoves at h
  simp only [List.mem_filterMap] at h
  obtain ⟨d, hd, hq⟩ := h
  split at hq
  · rcases Option.some.inj hq with rfl
    simp only [kingDirs, List.mem_cons, List.not_mem_nil, or_false] at hd
    rcases hd with rfl | rfl | rfl | rfl | rfl | rfl | rfl | rfl <;> simp
  · exact absurd hq (by simp)

theorem isLegalMoveS_fst_eq_true (g : Game) (a t : Pos)
    (h : (isLegalMoveS g a t).1 = true) :
    ∃ p, g.board a = some p ∧ p.color = g.currentTurn ∧ t ∈ possibleMoves p a g.board ∧
      isSquareUnderAttack (simulateMove g.board a t)
        (if p.kind = PieceKind.king then t else kingPosOf g p.color)
        (otherColor p.color) = false := by
  unfold isLegalMoveS at h
  cases hb : g.board a with
  | none => simp only [hb] at h; simp at h
  | some piece =>
    simp only [hb] at h
    by_cases h1 : piece.color ≠ g.currentTurn
    · rw [if_pos h1] at h; simp at h
    · rw [if_neg h1] at h
      by_cases h2 : t ∉ possibleMoves piece a g.board
      · rw [if_pos h2] at h; simp at h
      · rw [if_neg h2] at h
        simp only [Bool.not_eq_true'] at h
        refine ⟨piece, rfl, not_not.mp h1, not_not.mp h2, ?_⟩
        by_cases hk : piece.kind = PieceKind.king
        · rw [if_pos hk] at h ⊢
          rw [isInCheck, setKingPos_board, kingPosOf_setKingPos_self] at h
          exact h
        · rw [if_neg hk] at h ⊢
          rw [isInCheck, kingPosOf_board_update] at h
          exact h

theorem getAllPossibleMoves_mem (g : Game) (c : Color) (mv : Pos × Pos)
    (h : mv ∈ getAllPossibleMoves g c) :
    ∃ p, g.board mv.1 = some p ∧ p.color = c ∧ mv.2 ∈ possibleMoves p mv.1 g.board := by
  unfold getAllPossibleMoves at h
  rcases List.mem_flatMap.mp h with ⟨sq, hsq, hmem⟩
  cases hb : g.board sq with
  | none => simp only [hb] at hmem; simp at hmem
  | some p =>
    simp only [hb] at hmem
    split at hmem
    · rename_i hc
      rcases List.mem_map.mp hmem with ⟨t, ht, rfl⟩
      exact ⟨p, hb, hc, ht⟩
    · simp at hmem

theorem isLegalMoveS_wrong_color (g : Game) (a t : Pos) (p : Piece)
    (hb : g.board a = some p) (hcol : p.color ≠ g.currentTurn) :
    (isLegalMoveS g a t).1 = false := by
  unfold isLegalMoveS
  simp only [hb]
  rw [if_pos hcol]

theorem makeMoveS_of_illegal (g : Game) (a t : Pos) (pk : PieceKind)
    (h : (isLegalMoveS g a t).1 = false) : makeMoveS g a t pk = MMResult.ret false g := by
  unfold makeMoveS
  simp only [h, isLegalMoveS_snd]
  simp

theorem simulateMove_at_from (b : Board) (a t : Pos) : simulateMove b a t a = none := by
  rw [simulateMove, Board.set_self]

theorem simulateMove_at_to (b : Board) (a t : Pos) (h : t ≠ a) : simulateMove b a t t = b a := by
  rw [simulateMove, Board.set_ne _ _ _ _ h, Board.set_self]

theorem simulateMove_at_other (b : Board) (a t q : Pos) (h1 : q ≠ a) (h2 : q ≠ t) :
    simulateMove b a t q = b q := by
  rw [simulateMove, Board.set_ne _ _ _ _ h1, Board.set_ne _ _ _ _ h2]

/-- Claim C8: `is_legal_move` (and therefore `get_legal_moves`) restores the
hypothetical state before returning: the `Game` left behind — board mapping,
both king caches, current turn, counters, castling rights and history — is
exactly the one from before the call. -/
theorem claim_C8 (g : Game) (a t : Pos) (c : Color) :
    (isLegalMoveS g a t).2 = g ∧ (getLegalMovesS g c).2 = g :=
  ⟨isLegalMoveS_snd g a t, getLegalMovesS_snd g c⟩

/-- Claim C10: for a color other than the side to move, `get_legal_moves`
returns the empty list, because `is_legal_move` rejects every piece whose
color is not the current turn. -/
theorem claim_C10 (g : Game) (c : Color) (h : c ≠ g.currentTurn) :
    getLegalMoves g c = [] := by
  rw [getLegalMoves_eq, List.filter_eq_nil_iff]
  intro mv hmv
  obtain ⟨p, hb, hc, _⟩ := getAllPossibleMoves_mem g c mv hmv
  rw [isLegalMoveS_wrong_color g mv.1 mv.2 p hb (by rw [hc]; exact h)]
  simp

/-- Witness for C10 at a concrete position (black is not to move). -/
theorem claim_C10_witness : getLegalMoves gFifty Color.black = [] :=
  claim_C10 gFifty Color.black (by decide)

/-- Claim C2: an illegal move request (no piece at the source, wrong color,
destination not among the piece's geometric candidates, or a move leaving the
mover's own king in check — exactly the cases in which `is_legal_move`
returns false) makes `make_move` return `False` and leave the whole state,
board, turn, castling rights, counters, king caches and history, unchanged. -/
theorem claim_C2 (g : Game) (a t : Pos) (pk : PieceKind)
    (h : (isLegalMoveS g a t).1 = false) :
    makeMoveS g a t pk = MMResult.ret false g :=
  makeMoveS_of_illegal g a t pk h

/-- Witness for C2: from the initial position, moving black's rook while it
is white's turn is rejected with the state unchanged. -/
theorem claim_C2_witness :
    makeMoveS initGame ((0 : Int), (0 : Int)) ((0 : Int), (1 : Int)) PieceKind.queen
      = MMResult.ret false initGame :=
  claim_C2 initGame ((0 : Int), (0 : Int)) ((0 : Int), (1 : Int)) PieceKind.queen (by decide)

/-- Claim C3 evaluated on the code (the claim is false of the code): in the
Scenario-C position `can_castle('white','kingside')` is `True`, yet
`make_move((7,4),(7,6))` returns `False` and changes nothing, because the
two-file king move is rejected by the geometric-candidate gate of
`is_legal_move` (`King.possible_moves` yields only unit offsets), so the
castling dispatch inside `make_move` is unreachable. -/
theorem claim_C3_eval :
    canCastle gCastle Color.white Side.kingside = true ∧
    makeMoveS gCastle ((7 : Int), (4 : Int)) ((7 : Int), (6 : Int)) PieceKind.queen
      = MMResult.ret false gCastle :=
  ⟨by decide, makeMoveS_of_illegal _ _ _ _ (by decide)⟩

/-- Claim C1: under the king-placement invariant that reachable states
maintain (every king of the side to move sits on that side's cached king
square — cache coherence plus uniqueness), every move pair returned by
`get_legal_moves(current_turn)` is check-safe: on the board produced by
applying the move, wherever the mover's king stands it is not attacked by
the opposing color. -/
theorem claim_C1 (g : Game)
    (hU : ∀ sq q, g.board sq = some q → q.kind = PieceKind.king →
          q.color = g.currentTurn → sq = kingPosOf g g.currentTurn)
    (f t : Pos) (hmem : (f, t) ∈ getLegalMoves g g.currentTurn)
    (sq : Pos) (q : Piece) (hsq : simulateMove g.board f t sq = some q)
    (hqk : q.kind = PieceKind.king) (hqc : q.color = g.currentTurn) :
    isSquareUnderAttack (simulateMove g.board f t) sq (otherColor g.currentTurn) = false := by
  rw [getLegalMoves_eq] at hmem
  have hpred : (isLegalMoveS g f t).1 = true := by
    have := (List.mem_filter.mp hmem).2
    simpa using this
  obtain ⟨p, hb, hcol, hposs, hsafe⟩ := isLegalMoveS_fst_eq_true g f t hpred
  have hft : t ≠ f := by
    intro he
    subst he
    exact possibleMoves_not_self p t g.board hb hposs
  have hsq_ne_f : sq ≠ f := by
    intro he
    subst he
    rw [simulateMove_at_from] at hsq
    exact Option.noConfusion hsq
  by_cases hk : p.kind = PieceKind.king
  · -- the king itself moved: it now stands on t and only there
    have hsqt : sq = t := by
      by_cases h1 : sq = t
      · exact h1
      · exfalso
        rw [simulateMove_at_other g.board f t sq hsq_ne_f h1] at hsq
        have hf : f = kingPosOf g g.currentTurn := hU f p hb hk hcol
        have hs : sq = kingPosOf g g.currentTurn := hU sq q hsq hqk hqc
        exact hsq_ne_f (hs.trans hf.symm)
    subst hsqt
    rw [if_pos hk] at hsafe
    rw [← hcol]
    exact hsafe
  · -- a non-king moved: the king stayed on the cached square
    have hsq_ne_t : sq ≠ t := by
      intro he
      subst he
      rw [simulateMove_at_to g.board f sq hft] at hsq
      rw [hb] at hsq
      rcases Option.some.inj hsq with rfl
      exact hk hqk
    rw [simulateMove_at_other g.board f t sq hsq_ne_f hsq_ne_t] at hsq
    have hs : sq = kingPosOf g g.currentTurn := hU sq q hsq hqk hqc
    rw [if_neg hk, hcol] at hsafe
    rw [hs, ← hcol, hcol]
    exact hsafe

/-- Witness for C1: a concrete position, a concrete legal rook move, and the
white king's square on the resulting board, shown unattacked. -/
theorem claim_C1_witness :
    isSquareUnderAttack (simulateMove gFifty.board ((4 : Int), (0 : Int)) ((4 : Int), (1 : Int)))
      ((7 : Int), (4 : Int)) (otherColor gFifty.currentTurn) = false := by
  apply claim_C1 gFifty ?_ ((4 : Int), (0 : Int)) ((4 : Int), (1 : Int)) (by decide)
    ((7 : Int), (4 : Int)) ⟨1, PieceKind.king, Color.white, false⟩ (by decide) rfl rfl
  intro sq q hb hk hc
  simp only [gFifty, rookBoard] at hb
  split at hb
  · rcases Option.some.inj hb with rfl
    exact absurd hk (by decide)
  · split at hb
    · rename_i h1 h2
      exact h2
    · split at hb
      · rcases Option.some.inj hb with rfl
        exact absurd hc (by decide)
      · exact Option.noConfusion hb

/-- Counterexample to C9 as stated: `config(depth=12, bogus=1)` raises
`KeyError` on `bogus`, but the stored configuration is *not* preserved — the
recognized key `depth` iterated first has already been assigned when the
error is raised. -/
theorem claim_C9_counterexample :
    configS defaultCfg [("depth", CfgVal.int 12), ("bogus", CfgVal.int 1)]
        = Except.error ("bogus", { defaultCfg with depth := CfgVal.int 12 }) ∧
      ({ defaultCfg with depth := CfgVal.int 12 } : EngineCfg) ≠ defaultCfg :=
  ⟨rfl, by decide⟩

/-- Claim C9 (amended): if any keyword argument key is unrecognized, `config`
raises `KeyError` at the first such key (the error is surfaced, never
silently ignored), and at that moment the stored configuration equals the
original with exactly the recognized keys *preceding* the first unrecognized
key applied — it is preserved only when no recognized key precedes it. -/
theorem claim_C9 (c : EngineCfg) (kw : List (String × CfgVal))
    (h : kw.any (fun p => !isCfgKey p.1) = true) :
    ∃ pre k v suf, kw = pre ++ (k, v) :: suf ∧ pre.all (fun p => isCfgKey p.1) = true ∧
      isCfgKey k = false ∧ configS c kw = Except.error (k, applyCfg c pre) := by
  induction kw generalizing c with
  | nil => simp at h
  | cons kv rest ih =>
    by_cases hk : isCfgKey kv.1 = true
    · have h' : rest.any (fun p => !isCfgKey p.1) = true := by
        simp only [List.any_cons, hk, Bool.not_true, Bool.false_or] at h
        exact h
      obtain ⟨pre, k, v, suf, heq, hall, hbad, hcfg⟩ := ih (cfgSet c kv.1 kv.2) h'
      refine ⟨kv :: pre, k, v, suf, by rw [heq]; rfl, ?_, hbad, ?_⟩
      · simp [List.all_cons, hk, hall]
      · have hstep : configS c (kv :: rest) = configS (cfgSet c kv.1 kv.2) rest := by
          cases kv
          simp [configS, hk]
        rw [hstep, hcfg]
        rfl
    · refine ⟨[], kv.1, kv.2, rest, by cases kv; rfl, rfl, by simpa using hk, ?_⟩
      have : configS c (kv :: rest) = Except.error (kv.1, c) := by
        cases kv
        simp only [configS]
        rw [if_neg (by simpa using hk)]
      rw [this]
      rfl

/-- Witness for the amended C9 at the counterexample call. -/
theorem claim_C9_witness :
    ∃ pre k v suf,
      ([("depth", CfgVal.int 12), ("bogus", CfgVal.int 1)] : List (String × CfgVal))
          = pre ++ (k, v) :: suf ∧
        pre.all (fun p => isCfgKey p.1) = true ∧ isCfgKey k = false ∧
        configS defaultCfg [("depth", CfgVal.int 12), ("bogus", CfgVal.int 1)]
          = Except.error (k, applyCfg defaultCfg pre) :=
  claim_C9 defaultCfg [("depth", CfgVal.int 12), ("bogus", CfgVal.int 1)] (by decide)

theorem clearBoth_mono (cr : CastlingRights) (c0 c : Color) (s : Side)
    (h : cr.get c s = false) : (cr.clearBoth c0).get c s = false := by
  cases c0 <;> cases c <;> cases s <;>
    simp_all [CastlingRights.get, CastlingRights.clearBoth]

theorem updateRights_mono (cr : CastlingRights) (p : Piece) (a : Pos) (c : Color) (s : Side)
    (h : cr.get c s = false) : (updateRightsAfterMove cr p a).get c s = false := by
  unfold updateRightsAfterMove
  split
  · exact clearBoth_mono cr p.color c s h
  · split
    · repeat' split
      all_goals cases c <;> cases s <;> simp_all [CastlingRights.get]
    · exact h

theorem executeCastling_rights (g : Game) (c : Color) (s : Side) :
    (executeCastling g c s).castlingRights = g.castlingRights.clearBoth c := by
  unfold executeCastling
  cases s <;> simp [setKingPos_rights]

theorem finishMove_rights_mono (gmid : Game) (a t : Pos) (piece : Piece)
    (captured : Option Piece) (mv : MoveRec) (c : Color) (s : Side)
    (h : gmid.castlingRights.get c s = false) :
    ((finishMove gmid a t piece captured mv).state).castlingRights.get c s = false := by
  unfold finishMove
  split
  · exact h
  · simp only [MMResult.state, updateGameState_rights]
    split <;> exact updateRights_mono gmid.castlingRights piece a c s h

theorem undoS_rights (g : Game) : (undoS g).2.castlingRights = g.castlingRights := by
  unfold undoS
  cases hm : g.moveHistory with
  | nil => rfl
  | cons m rest =>
    simp only [updateGameState_rights]
    repeat' split
    all_goals simp [setKingPos_rights]

theorem makeMoveS_rights_mono (g : Game) (a t : Pos) (pk : PieceKind) (c : Color) (s : Side)
    (h : g.castlingRights.get c s = false) :
    ((makeMoveS g a t pk).state).castlingRights.get c s = false := by
  unfold makeMoveS
  simp only [isLegalMoveS_snd]
  split
  · exact h
  · cases hb : g.board a with
    | none => exact h
    | some piece =>
      simp only [hb]
      split
      · split <;> split <;>
          first
            | (apply finishMove_rights_mono
               rw [executeCastling_rights]
               exact clearBoth_mono _ _ _ _ h)
            | exact h
      · apply finishMove_rights_mono
        split <;> simp only [setKingPos_rights] <;> exact h

/-- Claim C7: castling-rights flags are monotone — a flag already false stays
false across any `make_move` call (whatever its outcome) and any `undo_move`
call; cleared rights are never re-enabled by either operation. -/
theorem claim_C7 (g : Game) (a t : Pos) (pk : PieceKind) (c : Color) (s : Side)
    (h : g.castlingRights.get c s = false) :
    ((makeMoveS g a t pk).state).castlingRights.get c s = false ∧
      ((undoS g).2).castlingRights.get c s = false :=
  ⟨makeMoveS_rights_mono g a t pk c s h, by rw [undoS_rights]; exact h⟩

/-- Witness for C7 at a concrete position with white kingside rights cleared. -/
theorem claim_C7_witness :
    ((makeMoveS gFifty ((4 : Int), (0 : Int)) ((4 : Int), (1 : Int))
        PieceKind.queen).state).castlingRights.get Color.white Side.kingside = false ∧
      ((undoS gFifty).2).castlingRights.get Color.white Side.kingside = false :=
  claim_C7 gFifty ((4 : Int), (0 : Int)) ((4 : Int), (1 : Int)) PieceKind.queen
    Color.white Side.kingside (by decide)

theorem finishMove_shape (gmid : Game) (a t : Pos) (piece : Piece)
    (captured : Option Piece) (mv : MoveRec) :
    finishMove gmid a t piece captured mv = MMResult.exn gmid ∨
      ∃ gz, finishMove gmid a t piece captured mv = MMResult.ret true (updateGameState gz) := by
  unfold finishMove
  split
  · exact Or.inl rfl
  · exact Or.inr ⟨_, rfl⟩

theorem makeMoveS_shape (g : Game) (a t : Pos) (pk : PieceKind) :
    (∃ g1, makeMoveS g a t pk = MMResult.ret false g1) ∨
      (∃ gz, makeMoveS g a t pk = MMResult.exn gz) ∨
      ∃ gz, makeMoveS g a t pk = MMResult.ret true (updateGameState gz) := by
  unfold makeMoveS
  simp only [isLegalMoveS_snd]
  split
  · exact Or.inl ⟨_, rfl⟩
  · cases hb : g.board a with
    | none => exact Or.inl ⟨_, rfl⟩
    | some piece =>
      simp only [hb]
      split
      · split <;> split
        all_goals
          first
            | exact Or.inl ⟨_, rfl⟩
            | (rcases finishMove_shape _ a t piece (g.board t) _ with he | ⟨gz, he⟩
               · exact Or.inr (Or.inl ⟨_, he⟩)
               · exact Or.inr (Or.inr ⟨gz, he⟩))
      · rcases finishMove_shape _ a t piece (g.board t) _ with he | ⟨gz, he⟩
        · exact Or.inr (Or.inl ⟨_, he⟩)
        · exact Or.inr (Or.inr ⟨gz, he⟩)

theorem makeMoveS_ok_state (g : Game) (a t : Pos) (pk : PieceKind)
    (h : (makeMoveS g a t pk).isOk = true) :
    ∃ gz, (makeMoveS g a t pk).state = updateGameState gz := by
  rcases makeMoveS_shape g a t pk with ⟨g1, he⟩ | ⟨gz, he⟩ | ⟨gz, he⟩
  · rw [he] at h
    exact absurd h (by simp [MMResult.isOk])
  · rw [he] at h
    exact absurd h (by simp [MMResult.isOk])
  · rw [he]
    exact ⟨gz, rfl⟩

theorem isLegalMoveS_fst (g : Game) (a t : Pos) :
    (isLegalMoveS g a t).1 =
      (match g.board a with
      | none => false
      | some piece =>
        if piece.color ≠ g.currentTurn then false
        else if t ∉ possibleMoves piece a g.board then false
        else !(isSquareUnderAttack (simulateMove g.board a t)
            (if piece.kind = PieceKind.king then t else kingPosOf g piece.color)
            (otherColor piece.color))) := by
  unfold isLegalMoveS
  cases hb : g.board a with
  | none => rfl
  | some piece =>
    by_cases h1 : piece.color ≠ g.currentTurn
    · simp only [if_pos h1]
    · simp only [if_neg h1]
      by_cases h2 : t ∉ possibleMoves piece a g.board
      · simp only [if_pos h2]
      · simp only [if_neg h2]
        by_cases hk : piece.kind = PieceKind.king
        · simp only [if_pos hk]
          rw [isInCheck, setKingPos_board, kingPosOf_setKingPos_self]
        · simp only [if_neg hk]
          rw [isInCheck, kingPosOf_board_update]

theorem isLegalMoveS_fst_irrel (g : Game) (s : GState) (a t : Pos) :
    (isLegalMoveS { g with gameState := s } a t).1 = (isLegalMoveS g a t).1 := by
  rw [isLegalMoveS_fst, isLegalMoveS_fst]
  rfl

theorem getAllPossibleMoves_irrel (g : Game) (s : GState) (c : Color) :
    getAllPossibleMoves { g with gameState := s } c = getAllPossibleMoves g c := rfl

theorem isInCheck_irrel (g : Game) (s : GState) (c : Color) :
    isInCheck { g with gameState := s } c = isInCheck g c := rfl

theorem getLegalMovesS_fst_irrel (g : Game) (s : GState) (c : Color) :
    (getLegalMovesS { g with gameState := s } c).1 = (getLegalMovesS g c).1 := by
  rw [getLegalMovesS_eq, getLegalMovesS_eq]
  simp only [getAllPossibleMoves_irrel]
  exact List.filter_congr fun mv _ => isLegalMoveS_fst_irrel g s mv.1 mv.2

theorem isCheckmate_irrel (g : Game) (s : GState) (c : Color) :
    isCheckmate { g with gameState := s } c = isCheckmate g c := by
  unfold isCheckmate
  rw [isInCheck_irrel, getLegalMovesS_fst_irrel]

theorem isStalemate_irrel (g : Game) (s : GState) (c : Color) :
    isStalemate { g with gameState := s } c = isStalemate g c := by
  unfold isStalemate
  rw [isInCheck_irrel, getLegalMovesS_fst_irrel]

theorem isCheckmate_updateGameState (g : Game) (c : Color) :
    isCheckmate (updateGameState g) c = isCheckmate g c := by
  rw [updateGameState]
  exact isCheckmate_irrel g _ c

theorem isStalemate_updateGameState (g : Game) (c : Color) :
    isStalemate (updateGameState g) c = isStalemate g c := by
  rw [updateGameState]
  exact isStalemate_irrel g _ c

theorem isInCheck_updateGameState (g : Game) (c : Color) :
    isInCheck (updateGameState g) c = isInCheck g c := by
  rw [updateGameState]
  exact isInCheck_irrel g _ c

theorem computeGameState_draw (g : Game)
    (h1 : isCheckmate g g.currentTurn = false) (h2 : isStalemate g g.currentTurn = false)
    (h3 : isInCheck g g.currentTurn = false) (h4 : 100 ≤ g.halfmoveClock) :
    computeGameState g = GState.draw := by
  unfold computeGameState
  simp [h1, h2, h3, h4]

/-- Counterexample to C6 as stated: a successful move that brings the
half-move clock to 101 while giving (escapable) check.  The side to move is
in neither checkmate nor stalemate and the clock is ≥ 100, yet the recomputed
state is Check, not Draw: the elif-chain of `update_game_state` tests check
before the fifty-move rule. -/
theorem claim_C6_counterexample :
    (makeMoveS gFifty ((4 : Int), (0 : Int)) ((0 : Int), (0 : Int)) PieceKind.queen).isOk
        = true ∧
      100 ≤ ((makeMoveS gFifty ((4 : Int), (0 : Int)) ((0 : Int), (0 : Int))
        PieceKind.queen).state).halfmoveClock ∧
      isCheckmate
        ((makeMoveS gFifty ((4 : Int), (0 : Int)) ((0 : Int), (0 : Int))
          PieceKind.queen).state)
        ((makeMoveS gFifty ((4 : Int), (0 : Int)) ((0 : Int), (0 : Int))
          PieceKind.queen).state).currentTurn = false ∧
      isStalemate
        ((makeMoveS gFifty ((4 : Int), (0 : Int)) ((0 : Int), (0 : Int))
          PieceKind.queen).state)
        ((makeMoveS gFifty ((4 : Int), (0 : Int)) ((0 : Int), (0 : Int))
          PieceKind.queen).state).currentTurn = false ∧
      ((makeMoveS gFifty ((4 : Int), (0 : Int)) ((0 : Int), (0 : Int))
        PieceKind.queen).state).gameState ≠ GState.draw := by
  decide

/-- Claim C6 (amended): after every successful `make_move`, if the half-move
clock is at least 100 and the side now to move is in neither checkmate, nor
stalemate, *nor plain check* (the source tests check before the fifty-move
rule), the recomputed game state is Draw. -/
theorem claim_C6 (g : Game) (a t : Pos) (pk : PieceKind)
    (h : (makeMoveS g a t pk).isOk = true)
    (h4 : 100 ≤ ((makeMoveS g a t pk).state).halfmoveClock)
    (h1 : isCheckmate ((makeMoveS g a t pk).state)
        ((makeMoveS g a t pk).state).currentTurn = false)
    (h2 : isStalemate ((makeMoveS g a t pk).state)
        ((makeMoveS g a t pk).state).currentTurn = false)
    (h3 : isInCheck ((makeMoveS g a t pk).state)
        ((makeMoveS g a t pk).state).currentTurn = false) :
    ((makeMoveS g a t pk).state).gameState = GState.draw := by
  obtain ⟨gz, he⟩ := makeMoveS_ok_state g a t pk h
  rw [he] at h1 h2 h3 h4 ⊢
  rw [updateGameState_turn] at h1 h2 h3
  rw [isCheckmate_updateGameState] at h1
  rw [isStalemate_updateGameState] at h2
  rw [isInCheck_updateGameState] at h3
  rw [updateGameState_halfmove] at h4
  show computeGameState gz = GState.draw
  exact computeGameState_draw gz h1 h2 h3 h4

/-- Witness for the amended C6: the same fifty-move position with a quiet
rook move that gives no check; the resulting state is Draw. -/
theorem claim_C6_witness :
    ((makeMoveS gFifty ((4 : Int), (0 : Int)) ((4 : Int), (1 : Int))
      PieceKind.queen).state).gameState = GState.draw :=
  claim_C6 gFifty ((4 : Int), (0 : Int)) ((4 : Int), (1 : Int)) PieceKind.queen
    (by decide) (by decide) (by decide) (by decide) (by decide)

/-- Claim C4 evaluated on the code (the claim is false of the code): from the
promotion position, `make_move((1,0),(0,0),'queen')` returns True, but the
piece on (0,0) is still the original pawn and the appended record carries no
promotion flag or kind.  `make_move` calls `is_promotion(from_pos, to_pos)`
*after* the board mutation, so it reads the now-empty source square and the
promotion branch (which would raise `NameError` anyway, `create_piece` being
commented out in `src/chess/pieces.py`) is unreachable. -/
theorem claim_C4_eval :
    (makeMoveS gPromo ((1 : Int), (0 : Int)) ((0 : Int), (0 : Int)) PieceKind.queen).isOk
        = true ∧
      ((makeMoveS gPromo ((1 : Int), (0 : Int)) ((0 : Int), (0 : Int))
          PieceKind.queen).state).board ((0 : Int), (0 : Int))
        = some ⟨0, PieceKind.pawn, Color.white, true⟩ ∧
      ((makeMoveS gPromo ((1 : Int), (0 : Int)) ((0 : Int), (0 : Int))
          PieceKind.queen).state).moveHistory.map (fun m => m.isPromotion) = [false] ∧
      ((makeMoveS gPromo ((1 : Int), (0 : Int)) ((0 : Int), (0 : Int))
          PieceKind.queen).state).moveHistory.map (fun m => m.promotedTo) = [none] := by
  decide

theorem isPromotionS_false_of_none (g : Game) (a t : Pos) (h : g.board a = none) :
    isPromotionS g a t = false := by
  unfold isPromotionS
  rw [h]

theorem possibleMoves_eq_kingMoves (p : Piece) (hk : p.kind = PieceKind.king)
    (pos : Pos) (b : Board) : possibleMoves p pos b = kingMoves p.color pos b := by
  unfold possibleMoves
  rw [hk]

theorem makeMoveS_regular (g : Game) (a t : Pos) (pk : PieceKind) (p : Piece)
    (hleg : (isLegalMoveS g a t).1 = true) (hb : g.board a = some p)
    (hnc : ¬(p.kind = PieceKind.king ∧ (t.2 - a.2).natAbs = 2)) :
    makeMoveS g a t pk = finishMove
      (if p.kind = PieceKind.king
        then setKingPos { g with board := (g.board.set t (some p)).set a none } p.color t
        else { g with board := (g.board.set t (some p)).set a none })
      a t p (g.board t)
      { fromPos := a, toPos := t, piece := p, captured := g.board t,
        isCastling := false, isEnPassant := false, isPromotion := false,
        promotedTo := none } := by
  unfold makeMoveS
  simp only [isLegalMoveS_snd, hleg, hb]
  rw [if_neg hnc]
  simp

theorem finishMove_board (gmid : Game) (a t : Pos) (piece : Piece)
    (captured : Option Piece) (mv : MoveRec) (hpro : isPromotionS gmid a t = false) :
    ((finishMove gmid a t piece captured mv).state).board
      = gmid.board.set t (some (movedPiece piece)) := by
  unfold finishMove
  rw [hpro, if_neg (by decide)]
  simp only [MMResult.state, updateGameState_board]
  split <;> rfl

theorem finishMove_history (gmid : Game) (a t : Pos) (piece : Piece)
    (captured : Option Piece) (mv : MoveRec) (hpro : isPromotionS gmid a t = false) :
    ((finishMove gmid a t piece captured mv).state).moveHistory
      = { mv with piece := movedPiece piece } :: gmid.moveHistory := by
  unfold finishMove
  rw [hpro, if_neg (by decide)]
  simp only [MMResult.state, updateGameState_history]
  split <;> rfl

theorem finishMove_turn (gmid : Game) (a t : Pos) (piece : Piece)
    (captured : Option Piece) (mv : MoveRec) (hpro : isPromotionS gmid a t = false) :
    ((finishMove gmid a t piece captured mv).state).currentTurn
      = otherColor gmid.currentTurn := by
  unfold finishMove
  rw [hpro, if_neg (by decide)]
  simp only [MMResult.state, updateGameState_turn]
  split <;> rfl

theorem undoS_fst_cons (S : Game) (m : MoveRec) (rest : List MoveRec)
    (hm : S.moveHistory = m :: rest) : (undoS S).1 = true := by
  unfold undoS
  rw [hm]

theorem undoS_turn_cons (S : Game) (m : MoveRec) (rest : List MoveRec)
    (hm : S.moveHistory = m :: rest) :
    (undoS S).2.currentTurn = otherColor S.currentTurn := by
  unfold undoS
  rw [hm]
  simp only [updateGameState_turn]
  repeat' split
  all_goals simp [setKingPos_turn]

theorem undoS_board_cons_reset (S : Game) (m : MoveRec) (rest : List MoveRec)
    (hm : S.moveHistory = m :: rest) (hnc : m.isCastling = false)
    (hcond : (rest.isEmpty || !(rest.any fun mv => mv.piece.pid == m.piece.pid)) = true) :
    (undoS S).2.board =
      ((S.board.set m.fromPos (some m.piece)).set m.toPos m.captured).set m.fromPos
        (some { m.piece with hasMoved := false }) := by
  unfold undoS
  rw [hm]
  simp only [updateGameState_board, hnc]
  rw [if_pos hcond]
  split <;> simp [setKingPos_board]

theorem undoS_board_cons_keep (S : Game) (m : MoveRec) (rest : List MoveRec)
    (hm : S.moveHistory = m :: rest) (hnc : m.isCastling = false)
    (hcond : (rest.isEmpty || !(rest.any fun mv => mv.piece.pid == m.piece.pid)) = false) :
    (undoS S).2.board =
      (S.board.set m.fromPos (some m.piece)).set m.toPos m.captured := by
  unfold undoS
  rw [hm]
  simp only [updateGameState_board, hnc]
  rw [if_neg (by rw [hcond]; exact Bool.false_ne_true)]
  split <;> simp [setKingPos_board]

theorem any_true_isEmpty_false (l : List MoveRec) (f : MoveRec → Bool)
    (h : l.any f = true) : l.isEmpty = false := by
  cases l <;> simp_all

/-- Claim C5: a successful `make_move` followed immediately by `undo_move`
restores the board contents and the current turn exactly (castling-rights
flags and the half/full-move counters are exempted by the claim).  The
hypothesis `flagHistConsistent` states the invariant play maintains for the
moved piece: its `has_moved` flag is set exactly when some history record
shows that same object moving — the condition under which `undo_move`'s
heuristic flag restore is exact. -/
theorem claim_C5 (g : Game) (a t : Pos) (pk : PieceKind)
    (hok : (makeMoveS g a t pk).isOk = true)
    (hfc : flagHistConsistent g a = true) :
    (undoS (makeMoveS g a t pk).state).1 = true ∧
      (undoS (makeMoveS g a t pk).state).2.board = g.board ∧
      (undoS (makeMoveS g a t pk).state).2.currentTurn = g.currentTurn := by
  have hleg : (isLegalMoveS g a t).1 = true := by
    by_contra hcon
    have hfalse : (isLegalMoveS g a t).1 = false := by
      cases hval : (isLegalMoveS g a t).1
      · rfl
      · exact absurd hval hcon
    rw [makeMoveS_of_illegal g a t pk hfalse] at hok
    exact absurd hok (by simp [MMResult.isOk])
  obtain ⟨p, hb, hcol, hposs, hsafe⟩ := isLegalMoveS_fst_eq_true g a t hleg
  have hnc : ¬(p.kind = PieceKind.king ∧ (t.2 - a.2).natAbs = 2) := by
    rintro ⟨hk, h2⟩
    rw [possibleMoves_eq_kingMoves p hk] at hposs
    have := (kingMoves_close p.color a g.board t hposs).2
    omega
  have hat : t ≠ a := by
    intro he
    subst he
    exact possibleMoves_not_self p t g.board hb hposs
  have hflag : p.hasMoved = (g.moveHistory.any fun mv => mv.piece.pid == p.pid) := by
    unfold flagHistConsistent at hfc
    rw [hb] at hfc
    simpa using hfc
  rw [makeMoveS_regular g a t pk p hleg hb hnc]
  have hgb : (if p.kind = PieceKind.king
        then setKingPos { g with board := (g.board.set t (some p)).set a none } p.color t
        else { g with board := (g.board.set t (some p)).set a none }).board
      = (g.board.set t (some p)).set a none := by
    split
    · rw [setKingPos_board]
    · rfl
  have hgt : (if p.kind = PieceKind.king
        then setKingPos { g with board := (g.board.set t (some p)).set a none } p.color t
        else { g with board := (g.board.set t (some p)).set a none }).currentTurn
      = g.currentTurn := by
    split
    · rw [setKingPos_turn]
    · rfl
  have hgh : (if p.kind = PieceKind.king
        then setKingPos { g with board := (g.board.set t (some p)).set a none } p.color t
        else { g with board := (g.board.set t (some p)).set a none }).moveHistory
      = g.moveHistory := by
    split
    · rw [setKingPos_history]
    · rfl
  have hpro : isPromotionS (if p.kind = PieceKind.king
        then setKingPos { g with board := (g.board.set t (some p)).set a none } p.color t
        else { g with board := (g.board.set t (some p)).set a none }) a t = false := by
    apply isPromotionS_false_of_none
    rw [hgb]
    exact Board.set_self _ _ _
  have hSb := finishMove_board _ a t p (g.board t)
    { fromPos := a, toPos := t, piece := p, captured := g.board t,
      isCastling := false, isEnPassant := false, isPromotion := false,
      promotedTo := none } hpro
  have hSh := finishMove_history _ a t p (g.board t)
    { fromPos := a, toPos := t, piece := p, captured := g.board t,
      isCastling := false, isEnPassant := false, isPromotion := false,
      promotedTo := none } hpro
  have hSt := finishMove_turn _ a t p (g.board t)
    { fromPos := a, toPos := t, piece := p, captured := g.board t,
      isCastling := false, isEnPassant := false, isPromotion := false,
      promotedTo := none } hpro
  rw [hgb] at hSb
  rw [hgh] at hSh
  rw [hgt] at hSt
  refine ⟨undoS_fst_cons _ _ _ hSh, ?_, ?_⟩
  · cases hmv : p.hasMoved with
    | false =>
      have hany : (g.moveHistory.any fun mv => mv.piece.pid == p.pid) = false := by
        rw [← hflag, hmv]
      have hpe : ({ movedPiece p with hasMoved := false } : Piece) = p := by
        rw [show ({ movedPiece p with hasMoved := false } : Piece)
              = { p with hasMoved := false } from rfl, ← hmv]
      rw [undoS_board_cons_reset _ _ _ hSh rfl
        (by dsimp only; dsimp only [movedPiece]; rw [hany]; simp)]
      dsimp only
      rw [hSb, hpe]
      funext q
      by_cases hq1 : q = a
      · subst hq1
        rw [Board.set_self, hb]
      · rw [Board.set_ne _ _ _ _ hq1]
        by_cases hq2 : q = t
        · subst hq2
          rw [Board.set_self]
        · rw [Board.set_ne _ _ _ _ hq2, Board.set_ne _ _ _ _ hq1,
            Board.set_ne _ _ _ _ hq2, Board.set_ne _ _ _ _ hq1,
            Board.set_ne _ _ _ _ hq2]
    | true =>
      have hany : (g.moveHistory.any fun mv => mv.piece.pid == p.pid) = true := by
        rw [← hflag, hmv]
      have hemp : g.moveHistory.isEmpty = false :=
        any_true_isEmpty_false _ _ hany
      have hpe : movedPiece p = p := by
        rw [show movedPiece p = { p with hasMoved := true } from rfl, ← hmv]
      rw [undoS_board_cons_keep _ _ _ hSh rfl
        (by dsimp only; dsimp only [movedPiece]; rw [hany, hemp]; simp)]
      dsimp only
      rw [hSb, hpe]
      funext q
      by_cases hq2 : q = t
      · subst hq2
        rw [Board.set_self]
      · rw [Board.set_ne _ _ _ _ hq2]
        by_cases hq1 : q = a
        · subst hq1
          rw [Board.set_self, hb]
        · rw [Board.set_ne _ _ _ _ hq1, Board.set_ne _ _ _ _ hq2,
            Board.set_ne _ _ _ _ hq1, Board.set_ne _ _ _ _ hq2]
  · rw [undoS_turn_cons _ _ _ hSh, hSt, otherColor_otherColor]

/-- Witness for C5: a concrete legal rook move made and then undone. -/
theorem claim_C5_witness :
    (undoS (makeMoveS gFifty ((4 : Int), (0 : Int)) ((4 : Int), (1 : Int))
        PieceKind.queen).state).1 = true ∧
      (undoS (makeMoveS gFifty ((4 : Int), (0 : Int)) ((4 : Int), (1 : Int))
        PieceKind.queen).state).2.board = gFifty.board ∧
      (undoS (makeMoveS gFifty ((4 : Int), (0 : Int)) ((4 : Int), (1 : Int))
        PieceKind.queen).state).2.currentTurn = gFifty.currentTurn :=
  claim_C5 gFifty ((4 : Int), (0 : Int)) ((4 : Int), (1 : Int)) PieceKind.queen
    (by decide) (by decide)
